import Mathlib

/-!
Verification of the infogram-go client library.

The development shallowly embeds the Go sources: byte strings are lists of
naturals below 256, machine words are naturals reduced modulo 2^32,
url.Values is an association list from keys to value lists, and the two
signing variants present in the repository (the hex/path variant and the
base64/full-URL variant) are embedded as separate functions, as are the two
revisions of the response dispatcher Do.
-/

set_option maxRecDepth 8000
set_option maxHeartbeats 2000000

namespace Infogram

/-! ### Bytes and 32-bit words -/

/-- Reduce a natural to a 32-bit word (all SHA-1 arithmetic is mod 2^32). -/
def w32 (n : Nat) : Nat := n % 4294967296

/-- Rotate a 32-bit word left by k bits (crypto/sha1 rotation). -/
def rotl32 (k n : Nat) : Nat := (n * 2 ^ k) % 4294967296 + n / 2 ^ (32 - k)

/-- Bitwise complement on 32-bit words. -/
def not32 (n : Nat) : Nat := 4294967295 - n

/-- Bytes of an ASCII string (Go strings are byte strings; every string the
library signs or escapes here is ASCII, where the Go byte equals the code point). -/
def strBytes (s : String) : List Nat := s.data.map Char.toNat

/-! ### SHA-1 (crypto/sha1) -/

/-- Four big-endian bytes of a 32-bit word. -/
def wordBytes (n : Nat) : List Nat :=
  [n / 16777216 % 256, n / 65536 % 256, n / 256 % 256, n % 256]

/-- Big-endian 32-bit words from bytes, four at a time. -/
def toWords : List Nat → List Nat
  | a :: b :: c :: d :: rest => (((a * 256 + b) * 256 + c) * 256 + d) :: toWords rest
  | _ => []

/-- The eight big-endian bytes of the 64-bit message bit length. -/
def lenBytes (bitLen : Nat) : List Nat :=
  (wordBytes (bitLen / 4294967296)) ++ wordBytes (w32 bitLen)

/-- SHA-1 padding: append 0x80, zero bytes to 56 mod 64, then the bit length. -/
def sha1Pad (msg : List Nat) : List Nat :=
  msg ++ [128] ++ List.replicate ((119 - msg.length % 64) % 64) 0 ++ lenBytes (msg.length * 8)

/-- Split a byte list (whose length is a multiple of 64) into 64-byte blocks. -/
def chunk64 (l : List Nat) (fuel : Nat) : List (List Nat) :=
  match fuel with
  | 0 => []
  | f + 1 => if l.isEmpty then [] else l.take 64 :: chunk64 (l.drop 64) f

/-- Extend the 16 schedule words of a block to 80 (n counts remaining extensions). -/
def extendW (ws : List Nat) (n : Nat) : List Nat :=
  match n with
  | 0 => ws
  | n + 1 =>
    let i := ws.length
    extendW (ws ++ [rotl32 1 (((ws.getD (i - 3) 0) ^^^ (ws.getD (i - 8) 0)) ^^^ ((ws.getD (i - 14) 0) ^^^ (ws.getD (i - 16) 0)))]) n

/-- The SHA-1 round function for round i. -/
def sha1F (i b c d : Nat) : Nat :=
  if i < 20 then (b &&& c) ||| (not32 b &&& d)
  else if i < 40 then (b ^^^ c) ^^^ d
  else if i < 60 then ((b &&& c) ||| (b &&& d)) ||| (c &&& d)
  else (b ^^^ c) ^^^ d

/-- The SHA-1 round constant for round i. -/
def sha1K (i : Nat) : Nat :=
  if i < 20 then 1518500249
  else if i < 40 then 1859775393
  else if i < 60 then 2400959708
  else 3395469782

/-- The 80 compression rounds over the schedule words. -/
def sha1Loop : List Nat → Nat → Nat × Nat × Nat × Nat × Nat → Nat × Nat × Nat × Nat × Nat
  | [], _, st => st
  | wi :: rest, i, (a, b, c, d, e) =>
    let temp := w32 (rotl32 5 a + sha1F i b c d + e + sha1K i + wi)
    sha1Loop rest (i + 1) (temp, a, rotl32 30 b, c, d)

/-- Compress one 64-byte block into the running state. -/
def sha1Block (h : Nat × Nat × Nat × Nat × Nat) (block : List Nat) : Nat × Nat × Nat × Nat × Nat :=
  let (h0, h1, h2, h3, h4) := h
  let ws := extendW (toWords block) 64
  let (a, b, c, d, e) := sha1Loop ws 0 (h0, h1, h2, h3, h4)
  (w32 (h0 + a), w32 (h1 + b), w32 (h2 + c), w32 (h3 + d), w32 (h4 + e))

/-- SHA-1 digest (20 bytes) of a byte list. -/
def sha1 (msg : List Nat) : List Nat :=
  let padded := sha1Pad msg
  let blocks := chunk64 padded padded.length
  let (h0, h1, h2, h3, h4) :=
    blocks.foldl sha1Block (1732584193, 4023233417, 2562383102, 271733878, 3285377520)
  wordBytes h0 ++ wordBytes h1 ++ wordBytes h2 ++ wordBytes h3 ++ wordBytes h4

/-! ### HMAC (crypto/hmac) -/

/-- HMAC-SHA1 with block size 64. -/
def hmacSha1 (key msg : List Nat) : List Nat :=
  let k0 := if key.length > 64 then sha1 key else key
  let k := k0 ++ List.replicate (64 - k0.length) 0
  let inner := sha1 ((k.map (fun b => b ^^^ 54)) ++ msg)
  sha1 ((k.map (fun b => b ^^^ 92)) ++ inner)

/-! ### Encodings: lowercase hex (fmt %x), base64 (encoding/base64 StdEncoding) -/

/-- Lowercase hex digit. -/
def hexChar (n : Nat) : Char := ("0123456789abcdef".data).getD n '0'

/-- Uppercase hex digit, used by percent-encoding. -/
def hexCharUpper (n : Nat) : Char := ("0123456789ABCDEF".data).getD n '0'

/-- Lowercase hex rendering of bytes, as produced by fmt.Sprintf with %x. -/
def hexEncode (bs : List Nat) : String :=
  ⟨(bs.map (fun b => [hexChar (b / 16), hexChar (b % 16)])).flatten⟩

/-- Standard base64 alphabet character. -/
def b64Char (n : Nat) : Char :=
  ("ABCDEFGHIJKLMNOPQRSTUVWXYZabcdefghijklmnopqrstuvwxyz0123456789+/".data).getD n 'A'

/-- Base64 groups with = padding. -/
def b64Groups : List Nat → List Char
  | a :: b :: c :: rest =>
    b64Char (a / 4) :: b64Char ((a % 4) * 16 + b / 16) ::
    b64Char ((b % 16) * 4 + c / 64) :: b64Char (c % 64) :: b64Groups rest
  | [a, b] => [b64Char (a / 4), b64Char ((a % 4) * 16 + b / 16), b64Char ((b % 16) * 4), '=']
  | [a] => [b64Char (a / 4), b64Char ((a % 4) * 16), '=', '=']
  | [] => []

/-- base64.StdEncoding.EncodeToString. -/
def base64Encode (bs : List Nat) : String := ⟨b64Groups bs⟩

/-! ### net/url: percent-encoding, Values, query parsing and encoding

All strings handled by the client are ASCII, so characters stand for bytes. -/

/-- Characters Go url.QueryEscape leaves unescaped: alphanumerics and -_.~ . -/
def unreservedChar (c : Char) : Bool :=
  (('a' ≤ c && c ≤ 'z') || ('A' ≤ c && c ≤ 'Z') || ('0' ≤ c && c ≤ '9')) ||
  (c == '-' || c == '_' || c == '.' || c == '~')

/-- Go url.QueryEscape on one character: keep unreserved, space to +, else %XX. -/
def escapeChar (c : Char) : List Char :=
  if unreservedChar c then [c]
  else if c == ' ' then ['+']
  else ['%', hexCharUpper (c.toNat / 16), hexCharUpper (c.toNat % 16)]

/-- Go url.QueryEscape. -/
def queryEscape (s : String) : String := ⟨(s.data.map escapeChar).flatten⟩

/-- Hex digit value of a character, 16 when not a hex digit. -/
def hexVal (c : Char) : Nat :=
  if '0' ≤ c && c ≤ '9' then c.toNat - 48
  else if 'a' ≤ c && c ≤ 'f' then c.toNat - 87
  else if 'A' ≤ c && c ≤ 'F' then c.toNat - 55
  else 16

/-- Go url.QueryUnescape on a character list: + to space, valid %XX decoded.
(Go reports an error on a malformed escape and ParseQuery drops that pair; the
model keeps a malformed escape literally, and no input in this development has one.) -/
def unescapeChars : List Char → List Char
  | [] => []
  | '%' :: a :: b :: rest =>
    if hexVal a < 16 && hexVal b < 16 then Char.ofNat (16 * hexVal a + hexVal b) :: unescapeChars rest
    else '%' :: unescapeChars (a :: b :: rest)
  | '+' :: rest => ' ' :: unescapeChars rest
  | c :: rest => c :: unescapeChars rest

/-- Go url.QueryUnescape (total model, see unescapeChars). -/
def queryUnescape (s : String) : String := ⟨unescapeChars s.data⟩

/-- Byte-wise lexicographic comparison of character lists: the ordering Go
uses on (ASCII) strings. -/
def charListLe : List Char → List Char → Bool
  | [], _ => true
  | _ :: _, [] => false
  | a :: as, b :: bs =>
    if a.toNat < b.toNat then true
    else if b.toNat < a.toNat then false
    else charListLe as bs

/-- Go string less-or-equal, byte-wise lexicographic. -/
def strLe (a b : String) : Bool := charListLe a.data b.data

/-- Go url.Values: a map from keys to lists of values, as an association list
with pairwise distinct keys (the operations below preserve that invariant). -/
abbrev Values := List (String × List String)

/-- Values.Get: first value under the key, empty string when absent or empty. -/
def Values.get (vs : Values) (k : String) : String :=
  match vs.find? (fun p => p.1 == k) with
  | some p => p.2.headD ""
  | none => ""

/-- Keys of a Values map. -/
def Values.keys (vs : Values) : List String := vs.map (fun p => p.1)

/-- Values.Set: replace the values under the key by the single given value. -/
def Values.set (vs : Values) (k v : String) : Values :=
  if vs.any (fun p => p.1 == k) then
    vs.map (fun p => if p.1 == k then (p.1, [v]) else p)
  else vs ++ [(k, [v])]

/-- Values.Add: append the value under the key. -/
def Values.add (vs : Values) (k v : String) : Values :=
  if vs.any (fun p => p.1 == k) then
    vs.map (fun p => if p.1 == k then (p.1, p.2 ++ [v]) else p)
  else vs ++ [(k, [v])]

/-- Remove every entry under a key (used to relate a parameter set to the set
with the signature entry taken back out). -/
def Values.eraseKey (vs : Values) (k : String) : Values :=
  vs.filter (fun p => p.1 != k)

instance strLeDecidableRel : DecidableRel (fun a b : String => strLe a b = true) :=
  fun a b => Bool.decEq (strLe a b) true

/-- Go sort.Slice with a lexicographic less comparator on strings: on lists
with pairwise distinct elements every sort agrees, so the model fixes one
executable sorting algorithm. -/
def sortStrings (l : List String) : List String :=
  List.insertionSort (fun a b => strLe a b = true) l

/-- All values under a key, empty when absent. -/
def Values.getAll (vs : Values) (k : String) : List String :=
  match vs.find? (fun p => p.1 == k) with
  | some p => p.2
  | none => []

/-- Values.Encode: sorted keys, every value, key=value percent-encoded, joined by &. -/
def Values.encode (vs : Values) : String :=
  String.intercalate "&"
    (((sortStrings (Values.keys vs)).map (fun k =>
      (Values.getAll vs k).map (fun v => queryEscape k ++ "=" ++ queryEscape v))).flatten)

/-- Split a character list at every ampersand (strings.Split on the & byte). -/
def splitAmp : List Char → List (List Char)
  | [] => [[]]
  | '&' :: rest => [] :: splitAmp rest
  | c :: rest =>
    match splitAmp rest with
    | h :: t => (c :: h) :: t
    | [] => [[c]]

/-- Go url.ParseQuery: split on &, cut each segment at the first =, unescape both parts. -/
def parseQuery (s : String) : Values :=
  (splitAmp s.data).foldl
    (fun acc seg =>
      if seg.isEmpty then acc
      else
        Values.add acc (queryUnescape ⟨seg.takeWhile (fun c => c ≠ '=')⟩)
          (queryUnescape ⟨(seg.dropWhile (fun c => c ≠ '=')).drop 1⟩))
    []

/-! ### The HTTP request model

A request carries the pieces of net/http.Request that the client reads or
writes: method, URL (base, escaped path, raw query), the URL-encoded body of
form posts, and the parsed Form field that ParseForm populates. -/

structure Request where
  method : String
  urlBase : String
  escapedPath : String
  rawQuery : String
  body : String
  form : Values
deriving DecidableEq

/-- req.URL.String(): base, escaped path, then ?query when the query is nonempty. -/
def Request.urlString (req : Request) : String :=
  req.urlBase ++ req.escapedPath ++ (if req.rawQuery = "" then "" else "?" ++ req.rawQuery)

/-- req.ParseForm() merged view (req.Form): the URL-encoded body parsed for
POST, PUT and PATCH (the client always sends the form content type), with the
URL query values appended after the body values. -/
def goParseForm (req : Request) : Values :=
  let postForm : Values :=
    match req.method with
    | "POST" | "PUT" | "PATCH" => parseQuery req.body
    | _ => []
  (parseQuery req.rawQuery).foldl
    (fun acc p => p.2.foldl (fun a v => Values.add a p.1 v) acc) postForm

/-- The client: API credentials (the HTTP transport and endpoint play no role
in signing and are modelled where needed as explicit arguments). -/
structure Client where
  APIKey : String
  APISecret : String
deriving DecidableEq

/-! ### SignRequest, base64/full-URL variant (client.go, SignRequest)

Parameters come from the query for GET and DELETE and from the parsed form
otherwise; api_key is set; the canonical string is
METHOD & QueryEscape(URL.String()) & QueryEscape(sorted parameter string);
the HMAC-SHA1 digest is base64-encoded and added under api_sig; the updated
set goes back to the raw query (GET, DELETE) or to the Form field. -/

/-- The parameter set the signer extracts from the request. -/
def extractedData (req : Request) : Values :=
  match req.method with
  | "GET" | "DELETE" => parseQuery req.rawQuery
  | _ => goParseForm req

/-- The extracted parameters with api_key set. -/
def dataWithKey (c : Client) (req : Request) : Values :=
  Values.set (extractedData req) "api_key" c.APIKey

/-- The serialization loop of the base64 variant: key=value on sorted keys,
with a separating & while idx < len(dataKeys)-1 (no trailing separator),
and no percent-encoding of the pair. -/
def paramsLoopRaw (data : Values) : List String → Nat → Nat → String
  | [], _, _ => ""
  | k :: rest, idx, total =>
    k ++ "=" ++ Values.get data k ++ (if idx < total - 1 then "&" else "") ++
      paramsLoopRaw data rest (idx + 1) total

/-- The parameter string the base64 variant signs. -/
def paramsStringRaw (data : Values) : String :=
  paramsLoopRaw data (sortStrings (Values.keys data)) 0 (sortStrings (Values.keys data)).length

/-- The canonical string of the base64 variant. -/
def canonicalForm (c : Client) (req : Request) : String :=
  req.method ++ "&" ++ queryEscape (Request.urlString req) ++ "&" ++
    queryEscape (paramsStringRaw (dataWithKey c req))

/-- The signature value the base64 variant attaches: h.Write(canonical) then
base64(h.Sum(nil)), a genuine HMAC-SHA1 digest of the canonical string. -/
def sigValueForm (c : Client) (req : Request) : String :=
  base64Encode (hmacSha1 (strBytes c.APISecret) (strBytes (canonicalForm c req)))

/-- The parameter set after data.Add("api_sig", signature). -/
def dataPostForm (c : Client) (req : Request) : Values :=
  Values.add (dataWithKey c req) "api_sig" (sigValueForm c req)

/-- SignRequest of the base64/full-URL variant; the second component is the
returned Go error. -/
def signRequestForm (c : Client) (req : Request) : Request × Option String :=
  match req.method with
  | "GET" | "DELETE" => ({ req with rawQuery := Values.encode (dataPostForm c req) }, none)
  | _ => ({ req with form := dataPostForm c req }, none)

/-! ### SignRequest, hex/path variant (client_test.go revision, SignRequest)

The query (with api_key set) is serialized with percent-encoded pairs but a
separating & written while idx < len(queryKeys), hence after every pair; the
canonical string uses the escaped path only.  The code then runs
h := hmac.New(sha1.New, secret); signature := h.Sum(sig.Bytes()): nothing is
ever written to h, so Sum appends the digest of the empty message to the
canonical bytes, and the value attached under api_sig is
hex(canonical bytes ++ HMAC-SHA1(secret, "")). -/

/-- The query parameters with api_key set (hex variant). -/
def queryWithKeyHex (c : Client) (req : Request) : Values :=
  Values.set (parseQuery req.rawQuery) "api_key" c.APIKey

/-- The serialization loop of the hex variant: percent-encoded key=value on
sorted keys, with an & after every pair (idx < len(queryKeys) always holds). -/
def paramsLoopEsc (data : Values) : List String → Nat → Nat → String
  | [], _, _ => ""
  | k :: rest, idx, total =>
    queryEscape k ++ "=" ++ queryEscape (Values.get data k) ++
      (if idx < total then "&" else "") ++ paramsLoopEsc data rest (idx + 1) total

/-- The parameter string the hex variant signs. -/
def paramsStringEsc (data : Values) : String :=
  paramsLoopEsc data (sortStrings (Values.keys data)) 0 (sortStrings (Values.keys data)).length

/-- The canonical string of the hex variant. -/
def canonicalHex (c : Client) (req : Request) : String :=
  req.method ++ "&" ++ req.escapedPath ++ "&" ++
    queryEscape (paramsStringEsc (queryWithKeyHex c req))

/-- The value the hex variant attaches under api_sig: hex of the canonical
bytes followed by the HMAC-SHA1 digest of the empty message. -/
def sigValueHex (c : Client) (req : Request) : String :=
  hexEncode (strBytes (canonicalHex c req) ++ hmacSha1 (strBytes c.APISecret) [])

/-- The query after query.Set("api_sig", signature) (hex variant). -/
def queryPostHex (c : Client) (req : Request) : Values :=
  Values.set (queryWithKeyHex c req) "api_sig" (sigValueHex c req)

/-- SignRequest of the hex/path variant; the second component is the returned
Go error. -/
def signRequestHex (c : Client) (req : Request) : Request × Option String :=
  ({ req with rawQuery := Values.encode (queryPostHex c req) }, none)

/-! ### The dispatcher Do

Do runs the transport, checks cancellation only when the transport failed,
defers closing the response body, rejects statuses above 299, and otherwise
feeds the body to the caller's sink.  The two revisions differ only in the
error they build on the non-2xx path. -/

/-- An HTTP response as Do consumes it: status code and fully read body. -/
structure HTTPResponse where
  statusCode : Nat
  respBody : String
deriving DecidableEq

/-- The caller's third argument v: nil, an io.Writer, or a JSON decode target
(decodeErr is the decode outcome on the response body, with io.EOF already
mapped to success as the source does for empty bodies). -/
inductive Sink where
  | noSink
  | sinkWriter
  | sinkTarget (decodeErr : Option String)
deriving DecidableEq

/-- The observable outcome of Do: a returned response, a returned error, or a
runtime fault from dereferencing the nil response. -/
inductive DoResult where
  | ok (res : HTTPResponse)
  | err (msg : String)
  | panicNilDeref
deriving DecidableEq

/-- Do, client.go revision.  After a transport error it returns ctx.Err() only
when the context is done; otherwise it falls through, and the deferred
res.Body.Close() dereferences the nil response.  On a status above 299 it
reads the body but builds the error from the status alone. -/
def clientDoV1 (ctxDone : Bool) (transport : Except String HTTPResponse) (v : Sink) : DoResult :=
  match transport with
  | .error _ => if ctxDone then .err "context canceled" else .panicNilDeref
  | .ok res =>
    if res.statusCode > 299 then .err ("code: " ++ toString res.statusCode ++ ", message: ")
    else
      match v with
      | .noSink => .ok res
      | .sinkWriter => .ok res
      | .sinkTarget decodeErr =>
        match decodeErr with
        | some e => .err e
        | none => .ok res

/-- Do, client_test.go revision: identical control flow, but the non-2xx error
is errors.New(string(errBody)), the raw response body. -/
def clientDoV2 (ctxDone : Bool) (transport : Except String HTTPResponse) (v : Sink) : DoResult :=
  match transport with
  | .error _ => if ctxDone then .err "context canceled" else .panicNilDeref
  | .ok res =>
    if res.statusCode > 299 then .err res.respBody
    else
      match v with
      | .noSink => .ok res
      | .sinkWriter => .ok res
      | .sinkTarget decodeErr =>
        match decodeErr with
        | some e => .err e
        | none => .ok res

/-! ### Resource records and their JSON methods (types.go)

Go interface values are embedded as GoVal; a JSON object is an association
list.  encoding/json stores every JSON number it decodes into an interface
value as a float64, never as an int: the wire round trip jsonWire records
exactly that conversion.  URL fields are embedded as their String rendering
and the time field as its RFC 3339 rendering (integral float64 payloads are
kept as Int, exact for every value in range). -/

inductive GoVal where
  | vInt (n : Int)
  | vFloat (n : Int)
  | vStr (s : String)
  | vBool (b : Bool)
deriving DecidableEq

/-- A decoded JSON object held in map[string]interface values. -/
abbrev JObj := List (String × GoVal)

/-- Lookup of a field in a JSON object. -/
def JObj.lookup (m : JObj) (k : String) : Option GoVal :=
  (m.find? (fun p => p.1 == k)).map (fun p => p.2)

/-- What marshalling then unmarshalling does to an interface value:
numbers come back as float64. -/
def jsonWire (m : JObj) : JObj :=
  m.map (fun p =>
    (p.1, match p.2 with
          | .vInt n => .vFloat n
          | v => v))

/-- The infographic record (struct Infoghaphic of types.go, spelling kept). -/
structure Infoghaphic where
  Id : Int
  Title : String
  Thumbnail : String
  ThemeId : Int
  Published : Bool
  Modified : String
  URL : String
deriving DecidableEq

/-- The zero time.Time rendered in RFC 3339. -/
def zeroTime : String := "0001-01-01T00:00:00Z"

/-- The zero-valued record JSON decoding starts from. -/
def Infoghaphic.zero : Infoghaphic := ⟨0, "", "", 0, false, zeroTime, ""⟩

/-- Infoghaphic.MarshalJSON: the map literally built at types.go:21-37.
It has no date_modified entry. -/
def Infoghaphic.marshalJSON (i : Infoghaphic) : JObj :=
  [("id", .vInt i.Id), ("title", .vStr i.Title), ("thumbnail_url", .vStr i.Thumbnail),
   ("theme_id", .vInt i.ThemeId), ("published", .vBool i.Published), ("url", .vStr i.URL)]

/-- Infoghaphic.UnmarshalJSON (types.go:39-109): field-by-field lookups with
Go type assertions; numeric fields are asserted to int (GoVal.vInt).
url.Parse and time.Parse are modelled as succeeding, keeping the string: the
branches of interest never reach them. -/
def Infoghaphic.unmarshalJSON (i0 : Infoghaphic) (data : JObj) : Except String Infoghaphic := do
  let i := i0
  let i ←
    match JObj.lookup data "id" with
    | some (.vInt v) => pure { i with Id := v }
    | some _ => throw "id needs to be an int"
    | none => pure i
  let i ←
    match JObj.lookup data "title" with
    | some (.vStr v) => pure { i with Title := v }
    | some _ => throw "title needs to be an string"
    | none => pure i
  let i ←
    match JObj.lookup data "thumbnail_url" with
    | some (.vStr v) => pure { i with Thumbnail := v }
    | some _ => throw "thumbnail_url needs to be an string"
    | none => pure i
  let i ←
    match JObj.lookup data "theme_id" with
    | some (.vInt v) => pure { i with ThemeId := v }
    | some _ => throw "theme_id needs to be an int"
    | none => pure i
  let i ←
    match JObj.lookup data "published" with
    | some (.vBool v) => pure { i with Published := v }
    | some _ => throw "published needs to be an boolean"
    | none => pure i
  let i ←
    match JObj.lookup data "date_modified" with
    | some (.vStr v) => pure { i with Modified := v }
    | some _ => throw "date_modified needs to be an string"
    | none => pure i
  let i ←
    match JObj.lookup data "url" with
    | some (.vStr v) => pure { i with URL := v }
    | some _ => throw "url needs to be an string"
    | none => pure i
  pure i

/-- The theme record (types.go). -/
structure Theme where
  Id : Int
  Title : String
  Thumbnail : String
deriving DecidableEq

/-- The zero-valued theme record. -/
def Theme.zero : Theme := ⟨0, "", ""⟩

/-- Theme.MarshalJSON (types.go:117-125). -/
def Theme.marshalJSON (t : Theme) : JObj :=
  [("id", .vInt t.Id), ("title", .vStr t.Title), ("thumbnail_url", .vStr t.Thumbnail)]

/-- Theme.UnmarshalJSON (types.go:127-157): the source declares an empty map
and never unmarshals the input bytes into it, so every lookup misses and the
receiver is returned unchanged. -/
def Theme.unmarshalJSON (t0 : Theme) (bytes : JObj) : Except String Theme := do
  let _ := bytes
  let data : JObj := []
  let t := t0
  let t ←
    match JObj.lookup data "id" with
    | some (.vInt v) => pure { t with Id := v }
    | some _ => throw "id needs to be an int"
    | none => pure t
  let t ←
    match JObj.lookup data "title" with
    | some (.vStr v) => pure { t with Title := v }
    | some _ => throw "title needs to be an string"
    | none => pure t
  let t ←
    match JObj.lookup data "thumbnail_url" with
    | some (.vStr v) => pure { t with Thumbnail := v }
    | some _ => throw "thumbnail_url needs to be an string"
    | none => pure t
  pure t

/-! ### Error plumbing of the resource operations (client.go revision 2)

The operations differ only in which step results they thread; the embedding
takes each step's outcome as an argument and returns the Go pair
(result, error). -/

/-- Client.Infographic (client.go:298-316): build request, sign, Do; on a Do
failure the source executes return nil, nil. -/
def infographicMethod (reqErr : Option String) (signErr : Option String)
    (doResult : Except String Infoghaphic) : Option Infoghaphic × Option String :=
  match reqErr with
  | some e => (none, some ("new infographic request: " ++ e))
  | none =>
    match signErr with
    | some e => (none, some e)
    | none =>
      match doResult with
      | .error _ => (none, none)
      | .ok v => (some v, none)

/-! ### Spec-side serialization, for comparison with the source loops

The specification describes the serialized parameter string as key=value
pairs, each key and value percent-encoded, joined by a single & between
consecutive pairs with no leading or trailing separator, over keys sorted
byte-wise.  joinAmp and specParamString are written from those words (not
from the source) and are compared against the source-derived loops. -/

/-- Join strings with a single & between consecutive elements. -/
def joinAmp : List String → String
  | [] => ""
  | [x] => x
  | x :: y :: ys => x ++ "&" ++ joinAmp (y :: ys)

/-- Plain concatenation of a list of strings. -/
def joinAll : List String → String
  | [] => ""
  | x :: xs => x ++ joinAll xs

/-- The serialized parameter string as the specification words it. -/
def specParamString (data : Values) : String :=
  joinAmp ((sortStrings (Values.keys data)).map
    (fun k => queryEscape k ++ "=" ++ queryEscape (Values.get data k)))

/-! ### Concrete fixtures from the repository's tests -/

/-- The client of the hex-variant golden test (client_test.go, TestClient/SignRequest). -/
def goldenClient : Client := ⟨"test-key", "shh"⟩

/-- The request of the hex-variant golden test after NewRequest. -/
def goldenRequest : Request :=
  ⟨"GET", "https://infogr.am", "/service/v1/infographics", "id=1&label=new+label", "", []⟩

/-- The api_sig value the hex-variant golden test asserts. -/
def goldenHexSig : String :=
  "474554262f736572766963652f76312f696e666f6772617068696373266170695f6b6579253344746573742d6b65792532366964253344312532366c6162656c2533446e65772532426c6162656c253236a6b812acfa12a677bb2fe6b266bac6a7294d9d06"

/-- The client of the base64-variant golden test (TestSignRequest). -/
def postClient : Client := ⟨"nMECGhmHe9", "da5xoLrCCx"⟩

/-- The POST request of the base64-variant golden test: the URL-encoded body
is params.Encode() exactly as the test builds it. -/
def postRequest : Request :=
  ⟨"POST", "https://infogr.am", "/service/v1/infographics", "",
   "content=%255B%257B%2522type%2522%253A%2522h1%2522%252C%2522text%2522%253A%2522Hello%2520infogr.am%2522%257D%255D&publish=false&theme_id=45&title=Hello",
   []⟩

/-- The api_sig value the base64-variant golden test asserts. -/
def goldenFormSig : String := "bqwCqAk1TWDYNy3eqV0BiNuIERQ="

/-- A small client for counterexamples and witnesses. -/
def smallClient : Client := ⟨"k", "s"⟩

/-- A form POST request with one body parameter. -/
def postSmallRequest : Request :=
  ⟨"POST", "https://infogr.am", "/service/v1/infographics", "", "a=1", []⟩

/-- A GET request with one query parameter. -/
def getSmallRequest : Request := ⟨"GET", "http://h", "/p", "a=1", "", []⟩

/-- Form POST fixtures differing only in the order of the body pairs. -/
def permRequest1 : Request := ⟨"POST", "http://h", "/p", "", "b=2&a=1", []⟩

/-- The same parameters as permRequest1, inserted in the other order. -/
def permRequest2 : Request := ⟨"POST", "http://h", "/p", "", "a=1&b=2", []⟩

/-- The infographic record of types_test.go (Modified left at the zero time). -/
def testInfographic : Infoghaphic :=
  ⟨100, "One Hundred", "https://example.com/thumbnail.png", 200, false, zeroTime,
   "https://example.com/100"⟩

/-- testInfographic with a nonzero Modified field. -/
def testInfographicModified : Infoghaphic :=
  ⟨100, "One Hundred", "https://example.com/thumbnail.png", 200, false,
   "2021-01-01T00:00:00Z", "https://example.com/100"⟩

/-- The theme record of types_test.go. -/
def testTheme : Theme := ⟨100, "One Hundred", "https://example.com/thumbnail.png"⟩

end Infogram


namespace Infogram

/-! ## Helper lemmas -/

theorem charListLe_total : ∀ as bs, charListLe as bs = true ∨ charListLe bs as = true
  | [], _ => Or.inl rfl
  | _ :: _, [] => Or.inr rfl
  | a :: as, b :: bs => by
    by_cases h1 : a.toNat < b.toNat
    · exact Or.inl (by simp [charListLe, h1])
    · by_cases h2 : b.toNat < a.toNat
      · exact Or.inr (by simp [charListLe, h2])
      · rcases charListLe_total as bs with h | h
        · exact Or.inl (by simp [charListLe, h1, h2, h])
        · exact Or.inr (by simp [charListLe, h1, h2, h])

theorem charListLe_trans : ∀ as bs cs, charListLe as bs = true → charListLe bs cs = true →
    charListLe as cs = true
  | [], _, _, _, _ => rfl
  | _ :: _, [], _, h1, _ => by simp [charListLe] at h1
  | _ :: _, _ :: _, [], _, h2 => by simp [charListLe] at h2
  | a :: as, b :: bs, c :: cs, h1, h2 => by
    simp only [charListLe] at h1 h2 ⊢
    rcases Nat.lt_trichotomy a.toNat b.toNat with hab | hab | hab <;>
      rcases Nat.lt_trichotomy b.toNat c.toNat with hbc | hbc | hbc <;>
      first
      | rw [if_pos (by omega)]
      | (rw [if_neg (by omega), if_pos (by omega)] at h1; exact absurd h1 (by simp))
      | (rw [if_neg (by omega), if_pos (by omega)] at h2; exact absurd h2 (by simp))
      | (rw [if_neg (by omega), if_neg (by omega)] at h1 h2 ⊢;
         exact charListLe_trans as bs cs h1 h2)

theorem charListLe_antisymm : ∀ as bs, charListLe as bs = true → charListLe bs as = true →
    as = bs
  | [], [], _, _ => rfl
  | [], _ :: _, _, h2 => by simp [charListLe] at h2
  | _ :: _, [], h1, _ => by simp [charListLe] at h1
  | a :: as, b :: bs, h1, h2 => by
    simp only [charListLe] at h1 h2
    rcases Nat.lt_trichotomy a.toNat b.toNat with h | h | h
    · rw [if_neg (by omega), if_pos h] at h2
      exact absurd h2 (by simp)
    · have ha : a = b := by
        have h2 := congrArg Char.ofNat h
        rwa [Char.ofNat_toNat, Char.ofNat_toNat] at h2
      subst ha
      rw [if_neg (by omega), if_neg (by omega)] at h1 h2
      rw [charListLe_antisymm as bs h1 h2]
    · rw [if_neg (by omega), if_pos h] at h1
      exact absurd h1 (by simp)

instance : IsTotal String (fun a b => strLe a b = true) :=
  ⟨fun a b => charListLe_total a.data b.data⟩

instance : IsTrans String (fun a b => strLe a b = true) :=
  ⟨fun a b c => charListLe_trans a.data b.data c.data⟩

instance : IsAntisymm String (fun a b => strLe a b = true) :=
  ⟨fun a b h1 h2 => by
    have h := charListLe_antisymm a.data b.data h1 h2
    cases a
    cases b
    exact congrArg String.mk h⟩

theorem sortStrings_sorted (l : List String) :
    (sortStrings l).Sorted (fun a b => strLe a b = true) :=
  List.sorted_insertionSort (fun a b => strLe a b = true) l

theorem sortStrings_perm (l : List String) : (sortStrings l).Perm l :=
  List.perm_insertionSort (fun a b => strLe a b = true) l

theorem sortStrings_congr {l1 l2 : List String} (h : l1.Perm l2) :
    sortStrings l1 = sortStrings l2 :=
  List.eq_of_perm_of_sorted
    ((sortStrings_perm l1).trans (h.trans (sortStrings_perm l2).symm))
    (sortStrings_sorted l1) (sortStrings_sorted l2)

end Infogram

namespace Infogram

theorem anyKey_true_iff (l : Values) (k : String) :
    (l.any (fun p => p.1 == k)) = true ↔ k ∈ Values.keys l := by
  rw [List.any_eq_true]
  unfold Values.keys
  constructor
  · rintro ⟨p, hp, he⟩
    exact List.mem_map.mpr ⟨p, hp, (beq_iff_eq.mp he)⟩
  · intro h
    rcases List.mem_map.mp h with ⟨p, hp, he⟩
    exact ⟨p, hp, beq_iff_eq.mpr he⟩

theorem anyKey_false_of_not_mem {l : Values} {k : String} (h : k ∉ Values.keys l) :
    (l.any (fun p => p.1 == k)) = false := by
  cases ha : l.any (fun p => p.1 == k)
  · rfl
  · exact absurd ((anyKey_true_iff l k).mp ha) h

theorem any_congr_of_perm {α} {l1 l2 : List α} (h : l1.Perm l2) (p : α → Bool) :
    l1.any p = l2.any p := by
  cases ha : l1.any p
  · cases hb : l2.any p
    · rfl
    · rcases List.any_eq_true.mp hb with ⟨x, hm, hp⟩
      have := List.any_eq_false.mp ha x (h.symm.subset hm)
      exact absurd hp this
  · rcases List.any_eq_true.mp ha with ⟨x, hm, hp⟩
    exact (List.any_eq_true.mpr ⟨x, h.subset hm, hp⟩).symm

theorem find?_congr_of_perm {α} (p : α → Bool) {l1 l2 : List α} (h : l1.Perm l2)
    (uniq : ∀ a ∈ l1, ∀ b ∈ l1, p a = true → p b = true → a = b) :
    l1.find? p = l2.find? p := by
  cases h1 : l1.find? p with
  | none =>
    cases h2 : l2.find? p with
    | none => rfl
    | some b =>
      have hb := List.find?_some h2
      have hm := h.symm.subset (List.mem_of_find?_eq_some h2)
      exact absurd hb (List.find?_eq_none.mp h1 b hm)
  | some a =>
    have ha := List.find?_some h1
    have ham := List.mem_of_find?_eq_some h1
    cases h2 : l2.find? p with
    | none =>
      exact absurd ha (List.find?_eq_none.mp h2 a (h.subset ham))
    | some b =>
      have hb := List.find?_some h2
      have hbm := h.symm.subset (List.mem_of_find?_eq_some h2)
      rw [uniq a ham b hbm ha hb]

theorem values_get_congr {l1 l2 : Values} (h : l1.Perm l2)
    (nd : (Values.keys l1).Nodup) (k : String) : Values.get l1 k = Values.get l2 k := by
  unfold Values.get
  unfold Values.keys at nd
  rw [find?_congr_of_perm (fun p => p.1 == k) h]
  intro a ha b hb hpa hpb
  exact List.inj_on_of_nodup_map nd ha hb ((beq_iff_eq.mp hpa).trans (beq_iff_eq.mp hpb).symm)

theorem keys_set (l : Values) (k v : String) :
    Values.keys (Values.set l k v) =
      if l.any (fun p => p.1 == k) then Values.keys l else Values.keys l ++ [k] := by
  unfold Values.set Values.keys
  split
  · rw [List.map_map]
    apply List.map_congr_left
    intro p _
    cases hpk : (p.1 == k) <;> simp [Function.comp, hpk]
  · simp

theorem set_eq_append_of_not_mem {l : Values} {k : String} (h : k ∉ Values.keys l) (v : String) :
    Values.set l k v = l ++ [(k, [v])] := by
  unfold Values.set
  rw [anyKey_false_of_not_mem h]
  simp

theorem add_eq_append_of_not_mem {l : Values} {k : String} (h : k ∉ Values.keys l) (v : String) :
    Values.add l k v = l ++ [(k, [v])] := by
  unfold Values.add
  rw [anyKey_false_of_not_mem h]
  simp

theorem notMem_keys_set {l : Values} {k1 k : String} (hne : k1 ≠ k)
    (h : k1 ∉ Values.keys l) (v : String) : k1 ∉ Values.keys (Values.set l k v) := by
  rw [keys_set]
  split
  · exact h
  · intro hm
    rcases List.mem_append.mp hm with hm | hm
    · exact h hm
    · exact hne (List.mem_singleton.mp hm)

theorem keys_set_nodup {l : Values} (nd : (Values.keys l).Nodup) (k v : String) :
    (Values.keys (Values.set l k v)).Nodup := by
  by_cases hany : (l.any (fun p => p.1 == k)) = true
  · rw [keys_set, if_pos hany]
    exact nd
  · rw [keys_set, if_neg hany]
    rw [List.nodup_append_comm, List.singleton_append, List.nodup_cons]
    exact ⟨fun hk => hany ((anyKey_true_iff l k).mpr hk), nd⟩

theorem set_perm {l1 l2 : Values} (h : l1.Perm l2) (k v : String) :
    (Values.set l1 k v).Perm (Values.set l2 k v) := by
  unfold Values.set
  rw [← any_congr_of_perm h (fun p => p.1 == k)]
  split
  · exact h.map (fun p => if p.1 == k then (p.1, [v]) else p)
  · exact h.append_right [(k, [v])]

theorem eraseKey_eq_self_of_not_mem {l : Values} {k : String} (h : k ∉ Values.keys l) :
    Values.eraseKey l k = l := by
  unfold Values.eraseKey
  rw [List.filter_eq_self]
  intro p hp
  have : p.1 ≠ k := fun he => h (List.mem_map.mpr ⟨p, hp, he⟩)
  simpa using this

theorem eraseKey_add {l : Values} {k : String} (h : k ∉ Values.keys l) (v : String) :
    Values.eraseKey (Values.add l k v) k = l := by
  rw [add_eq_append_of_not_mem h v]
  unfold Values.eraseKey
  rw [List.filter_append]
  have h1 : List.filter (fun p => p.1 != k) l = l := eraseKey_eq_self_of_not_mem h
  rw [h1]
  simp

theorem eraseKey_set {l : Values} {k : String} (h : k ∉ Values.keys l) (v : String) :
    Values.eraseKey (Values.set l k v) k = l := by
  rw [set_eq_append_of_not_mem h v]
  unfold Values.eraseKey
  rw [List.filter_append]
  have h1 : List.filter (fun p => p.1 != k) l = l := eraseKey_eq_self_of_not_mem h
  rw [h1]
  simp

end Infogram

namespace Infogram

theorem paramsLoopRaw_eq (data : Values) :
    ∀ keys idx, paramsLoopRaw data keys idx (idx + keys.length) =
      joinAmp (keys.map (fun k => k ++ "=" ++ Values.get data k))
  | [], _ => rfl
  | k :: rest, idx => by
    cases rest with
    | nil =>
      show k ++ "=" ++ Values.get data k ++
          (if idx < idx + 1 - 1 then "&" else "") ++ paramsLoopRaw data [] (idx + 1) (idx + 1) =
        k ++ "=" ++ Values.get data k
      rw [if_neg (by omega)]
      show k ++ "=" ++ Values.get data k ++ "" ++ "" = k ++ "=" ++ Values.get data k
      rw [String.append_empty, String.append_empty]
    | cons r rs =>
      show k ++ "=" ++ Values.get data k ++
          (if idx < idx + (rs.length + 1 + 1) - 1 then "&" else "") ++
          paramsLoopRaw data (r :: rs) (idx + 1) (idx + (rs.length + 1 + 1)) =
        joinAmp ((k ++ "=" ++ Values.get data k) ::
          (r :: rs).map (fun k => k ++ "=" ++ Values.get data k))
      rw [if_pos (by omega)]
      have ht : idx + (rs.length + 1 + 1) = (idx + 1) + (r :: rs).length := by
        simp
        omega
      rw [ht, paramsLoopRaw_eq data (r :: rs) (idx + 1)]
      show k ++ "=" ++ Values.get data k ++ "&" ++
          joinAmp ((r ++ "=" ++ Values.get data r) :: rs.map (fun k => k ++ "=" ++ Values.get data k)) =
        joinAmp ((k ++ "=" ++ Values.get data k) :: (r ++ "=" ++ Values.get data r) ::
          rs.map (fun k => k ++ "=" ++ Values.get data k))
      rfl

theorem paramsStringRaw_eq (data : Values) :
    paramsStringRaw data =
      joinAmp ((sortStrings (Values.keys data)).map (fun k => k ++ "=" ++ Values.get data k)) := by
  unfold paramsStringRaw
  have h := paramsLoopRaw_eq data (sortStrings (Values.keys data)) 0
  rwa [Nat.zero_add] at h

theorem paramsLoopEsc_eq (data : Values) :
    ∀ keys idx total, idx + keys.length ≤ total →
      paramsLoopEsc data keys idx total =
        joinAll (keys.map (fun k => queryEscape k ++ "=" ++ queryEscape (Values.get data k) ++ "&"))
  | [], _, _, _ => rfl
  | k :: rest, idx, total, h => by
    show queryEscape k ++ "=" ++ queryEscape (Values.get data k) ++
        (if idx < total then "&" else "") ++ paramsLoopEsc data rest (idx + 1) total =
      (queryEscape k ++ "=" ++ queryEscape (Values.get data k) ++ "&") ++
        joinAll (rest.map (fun k => queryEscape k ++ "=" ++ queryEscape (Values.get data k) ++ "&"))
    rw [if_pos (by simp at h; omega)]
    rw [paramsLoopEsc_eq data rest (idx + 1) total (by simp at h ⊢; omega)]

theorem paramsStringEsc_eq (data : Values) :
    paramsStringEsc data =
      joinAll ((sortStrings (Values.keys data)).map
        (fun k => queryEscape k ++ "=" ++ queryEscape (Values.get data k) ++ "&")) := by
  unfold paramsStringEsc
  exact paramsLoopEsc_eq data (sortStrings (Values.keys data)) 0
    (sortStrings (Values.keys data)).length (by omega)

end Infogram

namespace Infogram

/-! ## Claim theorems -/

/-- C1: the claim says SignRequest attaches, under api_sig, the HMAC-SHA1
digest (keyed by the API secret) of the canonical string, a value depending on
the canonical string only through the HMAC.  On the hex/path variant, at the
repository's own golden-test request, the attached value is instead the hex of
the canonical bytes themselves followed by the HMAC of the empty message
(h.Sum is called without writing the canonical string into the HMAC), and it
differs from the hex of the actual HMAC-SHA1 digest of the canonical string.
The base64/full-URL variant does attach the genuine HMAC-SHA1 digest of its
canonical string, reproducing that revision's golden test value. -/
theorem c1_hex_variant_attaches_non_hmac :
    sigValueHex goldenClient goldenRequest = goldenHexSig
  ∧ Values.get (parseQuery ((signRequestHex goldenClient goldenRequest).1.rawQuery)) "api_sig" =
      goldenHexSig
  ∧ sigValueHex goldenClient goldenRequest ≠
      hexEncode (hmacSha1 (strBytes goldenClient.APISecret)
        (strBytes (canonicalHex goldenClient goldenRequest)))
  ∧ sigValueForm postClient postRequest = goldenFormSig
  ∧ sigValueForm postClient postRequest =
      base64Encode (hmacSha1 (strBytes postClient.APISecret)
        (strBytes (canonicalForm postClient postRequest)))
  ∧ Values.get ((signRequestForm postClient postRequest).1.form) "api_sig" = goldenFormSig := by
  refine ⟨by decide, by decide, by decide, by decide, rfl, by decide⟩

/-- C2: the claim says Do surfaces the raw response body as the error text on
a non-2xx status.  The client.go revision reads the body but then builds the
error from the status code alone, so a 404 with body "not found" yields
"code: 404, message: ", not "not found"; the client_test.go revision returns
the raw body, as the repository's own tests assert. -/
theorem c2_do_error_drops_body :
    clientDoV1 false (.ok ⟨404, "not found"⟩) .noSink = .err "code: 404, message: "
  ∧ "code: 404, message: " ≠ "not found"
  ∧ clientDoV2 false (.ok ⟨404, "not found"⟩) .noSink = .err "not found" := by
  refine ⟨by decide, by decide, by decide⟩

/-- C3: the claim says MarshalJSON then UnmarshalJSON restores every record
field-by-field.  On the cited types.go revision, decoding the encoding of the
repository's own test record fails with "id needs to be an int", because the
decoder type-asserts numeric fields to Go int while encoding/json hands back
every number as float64; Theme.UnmarshalJSON never reads its input, returning
the zero record; and MarshalJSON emits no date_modified field at all. -/
theorem c3_roundtrip_fails :
    Infoghaphic.unmarshalJSON Infoghaphic.zero
      (jsonWire (Infoghaphic.marshalJSON testInfographic)) = .error "id needs to be an int"
  ∧ Theme.unmarshalJSON Theme.zero (jsonWire (Theme.marshalJSON testTheme)) = .ok Theme.zero
  ∧ Theme.zero ≠ testTheme
  ∧ JObj.lookup (Infoghaphic.marshalJSON testInfographicModified) "date_modified" = none := by
  refine ⟨rfl, rfl, by decide, rfl⟩

/-- C4: the claim says a resource operation never returns a nil error together
with a nil result after a failed step.  Client.Infographic executes
return nil, nil when Do fails: with the request and signing steps succeeding
and Do failing, the operation returns no value and no error. -/
theorem c4_infographic_suppresses_do_error :
    infographicMethod none none (.error "404 page not found") = (none, none) := rfl

/-- C5 counterexample: the claim says the serialized parameter string is the
sorted key=value pairs, percent-encoded, joined by single ampersands with no
trailing separator.  On the one-entry set a maps-to b c, the hex variant
produces a=b+c& (trailing separator) and the base64 variant produces a=b c
(no percent-encoding); both differ from the spec serialization a=b+c. -/
theorem c5_counterexample :
    paramsStringEsc [("a", ["b c"])] = "a=b+c&"
  ∧ paramsStringRaw [("a", ["b c"])] = "a=b c"
  ∧ specParamString [("a", ["b c"])] = "a=b+c"
  ∧ paramsStringEsc [("a", ["b c"])] ≠ specParamString [("a", ["b c"])]
  ∧ paramsStringRaw [("a", ["b c"])] ≠ specParamString [("a", ["b c"])] := by
  refine ⟨by decide, by decide, by decide, by decide, by decide⟩

/-- C5 amended: for every parameter set, both variants serialize over the
byte-wise sorted key list (a permutation of the keys); the hex variant writes
each pair percent-encoded but follows every pair, including the last, with an
ampersand, while the base64 variant joins the pairs with single ampersands and
no trailing separator but leaves keys and values unencoded. -/
theorem c5_amended_serialization (data : Values) :
    paramsStringRaw data =
      joinAmp ((sortStrings (Values.keys data)).map (fun k => k ++ "=" ++ Values.get data k))
  ∧ paramsStringEsc data =
      joinAll ((sortStrings (Values.keys data)).map
        (fun k => queryEscape k ++ "=" ++ queryEscape (Values.get data k) ++ "&"))
  ∧ (sortStrings (Values.keys data)).Sorted (fun a b => strLe a b = true)
  ∧ (sortStrings (Values.keys data)).Perm (Values.keys data) :=
  ⟨paramsStringRaw_eq data, paramsStringEsc_eq data,
   sortStrings_sorted (Values.keys data), sortStrings_perm (Values.keys data)⟩

end Infogram

namespace Infogram

/-- C6 counterexample: the claim says the signer writes the updated parameter
set (with api_key and api_sig) back to the place it was read from, for a
write-style method the URL-encoded body.  Signing a POST request with body
a=1 leaves the body bytes unchanged: the body re-parses to a set without any
api_sig even though the updated set carries one, and the body is not the
serialization of the updated set; the update lands in the Form field only. -/
theorem c6_counterexample :
    (signRequestForm smallClient postSmallRequest).1.body = "a=1"
  ∧ Values.get (dataPostForm smallClient postSmallRequest) "api_sig" ≠ ""
  ∧ Values.get (parseQuery ((signRequestForm smallClient postSmallRequest).1.body)) "api_sig" = ""
  ∧ (signRequestForm smallClient postSmallRequest).1.body ≠
      Values.encode (dataPostForm smallClient postSmallRequest) := by
  refine ⟨by decide, by decide, by decide, by decide⟩

/-- C6 amended: SignRequest reads the parameters from the URL query for GET
and DELETE and from the parsed form otherwise; it writes the updated set back
into the raw query for GET and DELETE, and for write-style methods it stores
the updated set in the request's Form field, leaving the encoded body (and the
query) unchanged. -/
theorem c6_amended_writeback (c : Client) (req : Request) :
    ((req.method = "GET" ∨ req.method = "DELETE") →
      (signRequestForm c req).1 = { req with rawQuery := Values.encode (dataPostForm c req) })
  ∧ (req.method ≠ "GET" → req.method ≠ "DELETE" →
      (signRequestForm c req).1 = { req with form := dataPostForm c req }) := by
  obtain ⟨m, ub, ep, rq, bd, fm⟩ := req
  constructor
  · rintro (h | h) <;> (simp only at h; subst h; rfl)
  · intro h1 h2
    simp only at h1 h2
    show (signRequestForm c ⟨m, ub, ep, rq, bd, fm⟩).1 = _
    unfold signRequestForm
    split
    · simp_all
    · simp_all
    · rfl

/-- C6 witness: the amended statement applied to the POST fixture. -/
theorem c6_witness :
    (signRequestForm smallClient postSmallRequest).1 =
      { postSmallRequest with form := dataPostForm smallClient postSmallRequest } :=
  (c6_amended_writeback smallClient postSmallRequest).2 (by decide) (by decide)

/-- C7: for both variants, when the incoming request carries no api_sig
parameter, the canonical string the signer feeds to the digest is built from
the parameter set with no api_sig key - equivalently, from the final parameter
set with the signature entry erased - so the attached signature is never part
of its own signing input. -/
theorem c7_sig_not_in_own_input (c : Client) (req : Request)
    (hform : "api_sig" ∉ Values.keys (extractedData req))
    (hquery : "api_sig" ∉ Values.keys (parseQuery req.rawQuery)) :
    (canonicalForm c req =
        req.method ++ "&" ++ queryEscape (Request.urlString req) ++ "&" ++
          queryEscape (paramsStringRaw (Values.eraseKey (dataPostForm c req) "api_sig"))
      ∧ "api_sig" ∉ Values.keys (dataWithKey c req))
  ∧ (canonicalHex c req =
        req.method ++ "&" ++ req.escapedPath ++ "&" ++
          queryEscape (paramsStringEsc (Values.eraseKey (queryPostHex c req) "api_sig"))
      ∧ "api_sig" ∉ Values.keys (queryWithKeyHex c req)) := by
  have h1 : "api_sig" ∉ Values.keys (dataWithKey c req) :=
    notMem_keys_set (by decide) hform c.APIKey
  have h2 : "api_sig" ∉ Values.keys (queryWithKeyHex c req) :=
    notMem_keys_set (by decide) hquery c.APIKey
  refine ⟨⟨?_, h1⟩, ?_, h2⟩
  · unfold dataPostForm
    rw [eraseKey_add h1]
    rfl
  · unfold queryPostHex
    rw [eraseKey_set h2]
    rfl

/-- C7 witness: the theorem applied to a GET fixture with one parameter. -/
theorem c7_witness :
    "api_sig" ∉ Values.keys (extractedData getSmallRequest)
  ∧ canonicalForm smallClient getSmallRequest =
      getSmallRequest.method ++ "&" ++ queryEscape (Request.urlString getSmallRequest) ++ "&" ++
        queryEscape (paramsStringRaw (Values.eraseKey (dataPostForm smallClient getSmallRequest) "api_sig")) :=
  ⟨by decide,
   ((c7_sig_not_in_own_input smallClient getSmallRequest (by decide) (by decide)).1).1⟩

end Infogram

namespace Infogram

/-- C8: two requests with the same method, the same URL string and escaped
path, and the same parameter key/value pairs up to insertion order (with
pairwise distinct keys) receive identical canonical strings and identical
signature values under both signing variants; signing being a pure function,
signing the same request twice is identical by construction. -/
theorem c8_order_independence (c : Client) (req1 req2 : Request)
    (hm : req1.method = req2.method)
    (hu : Request.urlString req1 = Request.urlString req2)
    (hp : req1.escapedPath = req2.escapedPath)
    (hd : (extractedData req1).Perm (extractedData req2))
    (hnd : (Values.keys (extractedData req1)).Nodup)
    (hq : (parseQuery req1.rawQuery).Perm (parseQuery req2.rawQuery))
    (hqnd : (Values.keys (parseQuery req1.rawQuery)).Nodup) :
    canonicalForm c req1 = canonicalForm c req2
  ∧ sigValueForm c req1 = sigValueForm c req2
  ∧ canonicalHex c req1 = canonicalHex c req2
  ∧ sigValueHex c req1 = sigValueHex c req2 := by
  have hperm1 : (dataWithKey c req1).Perm (dataWithKey c req2) := set_perm hd "api_key" c.APIKey
  have hnd1 : (Values.keys (dataWithKey c req1)).Nodup := keys_set_nodup hnd "api_key" c.APIKey
  have hkeys1 : (Values.keys (dataWithKey c req1)).Perm (Values.keys (dataWithKey c req2)) := by
    unfold Values.keys
    exact hperm1.map (fun p => p.1)
  have hparams : paramsStringRaw (dataWithKey c req1) = paramsStringRaw (dataWithKey c req2) := by
    rw [paramsStringRaw_eq, paramsStringRaw_eq, sortStrings_congr hkeys1]
    apply congrArg joinAmp
    apply List.map_congr_left
    intro k _
    rw [values_get_congr hperm1 hnd1 k]
  have hpermq : (queryWithKeyHex c req1).Perm (queryWithKeyHex c req2) := set_perm hq "api_key" c.APIKey
  have hndq : (Values.keys (queryWithKeyHex c req1)).Nodup := keys_set_nodup hqnd "api_key" c.APIKey
  have hkeysq : (Values.keys (queryWithKeyHex c req1)).Perm (Values.keys (queryWithKeyHex c req2)) := by
    unfold Values.keys
    exact hpermq.map (fun p => p.1)
  have hparamsq : paramsStringEsc (queryWithKeyHex c req1) = paramsStringEsc (queryWithKeyHex c req2) := by
    rw [paramsStringEsc_eq, paramsStringEsc_eq, sortStrings_congr hkeysq]
    apply congrArg joinAll
    apply List.map_congr_left
    intro k _
    rw [values_get_congr hpermq hndq k]
  have hcanon : canonicalForm c req1 = canonicalForm c req2 := by
    unfold canonicalForm
    rw [hm, hu, hparams]
  have hcanonHex : canonicalHex c req1 = canonicalHex c req2 := by
    unfold canonicalHex
    rw [hm, hp, hparamsq]
  refine ⟨hcanon, ?_, hcanonHex, ?_⟩
  · unfold sigValueForm
    rw [hcanon]
  · unfold sigValueHex
    rw [hcanonHex]

/-- C8 witness: the theorem applied to two POST fixtures whose form bodies
hold the same pairs in opposite orders. -/
theorem c8_witness :
    (extractedData permRequest1).Perm (extractedData permRequest2)
  ∧ canonicalForm smallClient permRequest1 = canonicalForm smallClient permRequest2
  ∧ sigValueForm smallClient permRequest1 = sigValueForm smallClient permRequest2 :=
  ⟨by decide,
   (c8_order_independence smallClient permRequest1 permRequest2 rfl rfl rfl
     (by decide) (by decide) (by decide) (by decide)).1,
   (c8_order_independence smallClient permRequest1 permRequest2 rfl rfl rfl
     (by decide) (by decide) (by decide) (by decide)).2.1⟩

/-- C9: the claim says Do executes without fault even when the transport
fails with the context still live, and that the response body is released on
every path.  When the transport returns an error and the context is not done,
both Do revisions fall through the cancellation check with a nil response and
fault at the deferred res.Body.Close() nil dereference; with the context done
they return the cancellation error instead. -/
theorem c9_do_nil_deref :
    clientDoV1 false (.error "connection refused") .noSink = .panicNilDeref
  ∧ clientDoV1 true (.error "connection refused") .noSink = .err "context canceled"
  ∧ clientDoV2 false (.error "connection refused") .noSink = .panicNilDeref := by
  refine ⟨rfl, rfl, rfl⟩

/-- C10: both SignRequest variants end in return nil unconditionally: the
declared error result is always nil, so signing can never be the failing step
of an operation. -/
theorem c10_signRequest_error_vacuous (c : Client) (req : Request) :
    (signRequestForm c req).2 = none ∧ (signRequestHex c req).2 = none := by
  constructor
  · unfold signRequestForm
    split <;> rfl
  · rfl

end Infogram
